import Mathlib

/-!
# Verification of the muffin-sdk fixed-point arithmetic core

Shallow embedding of the SDK's integer arithmetic.  JSBI big integers are
modelled as `Int` (auxiliary unsigned quantities as `Nat`); functions that
can `invariant`-throw (or hit a JSBI division by zero / negative square
root) are modelled with `Option`, `none` standing for a thrown error.
`JSBI.divide` truncates towards zero and is modelled by `Int.tdiv`;
`JSBI.signedRightShift` is an arithmetic shift, i.e. floor division by a
power of two, modelled by `Int.fdiv`.
-/

namespace Muffin

/-! ## Constants (src/constants.ts) -/

def MIN_TICK : Int := -776363
def MAX_TICK : Int := 776363
def MIN_SQRT_PRICE : Int := 65539
def MAX_SQRT_PRICE : Int := 340271175397327323250730767849398346765
def MAX_TIERS : Nat := 6
/-- `MAX_TIER_CHOICES = (1 << MAX_TIERS) - 1` (named `ALL_TIERS` in the
route module). -/
def MAX_TIER_CHOICES : Nat := 2 ^ MAX_TIERS - 1
def Q56 : Int := 2 ^ 56
def Q72 : Int := 2 ^ 72
def Q144 : Int := 2 ^ 144
def MaxUint256 : Int := 2 ^ 256 - 1

/-- `LimitOrderType` enum values. -/
def LimitOrderType.NotLimitOrder : Nat := 0
def LimitOrderType.ZeroForOne : Nat := 1
def LimitOrderType.OneForZero : Nat := 2

/-! ## TickMath (src/utils/tickMath.ts) -/

/-- `mulShift(val, mulBy)`: multiply then shift right by 128.  Both values
at every call site are non-negative 128-bit quantities, kept in `Nat`. -/
def mulShift (val : Nat) (mulBy : Nat) : Nat := (val * mulBy) >>> 128

/-- The bit ladder of `TickMath.tickToSqrtPriceX72`: starting from `2^128`,
for every set bit of `x` multiply by the per-bit constant (shifted back by
128 bits). -/
def tickRatio (x : Nat) : Nat :=
  let r := 0x100000000000000000000000000000000
  let r := if x &&& 0x1 ≠ 0 then mulShift r 0xfffcb933bd6fad37aa2d162d1a594001 else r
  let r := if x &&& 0x2 ≠ 0 then mulShift r 0xfff97272373d413259a46990580e213a else r
  let r := if x &&& 0x4 ≠ 0 then mulShift r 0xfff2e50f5f656932ef12357cf3c7fdcc else r
  let r := if x &&& 0x8 ≠ 0 then mulShift r 0xffe5caca7e10e4e61c3624eaa0941cd0 else r
  let r := if x &&& 0x10 ≠ 0 then mulShift r 0xffcb9843d60f6159c9db58835c926644 else r
  let r := if x &&& 0x20 ≠ 0 then mulShift r 0xff973b41fa98c081472e6896dfb254c0 else r
  let r := if x &&& 0x40 ≠ 0 then mulShift r 0xff2ea16466c96a3843ec78b326b52861 else r
  let r := if x &&& 0x80 ≠ 0 then mulShift r 0xfe5dee046a99a2a811c461f1969c3053 else r
  let r := if x &&& 0x100 ≠ 0 then mulShift r 0xfcbe86c7900a88aedcffc83b479aa3a4 else r
  let r := if x &&& 0x200 ≠ 0 then mulShift r 0xf987a7253ac413176f2b074cf7815e54 else r
  let r := if x &&& 0x400 ≠ 0 then mulShift r 0xf3392b0822b70005940c7a398e4b70f3 else r
  let r := if x &&& 0x800 ≠ 0 then mulShift r 0xe7159475a2c29b7443b29c7fa6e889d9 else r
  let r := if x &&& 0x1000 ≠ 0 then mulShift r 0xd097f3bdfd2022b8845ad8f792aa5825 else r
  let r := if x &&& 0x2000 ≠ 0 then mulShift r 0xa9f746462d870fdf8a65dc1f90e061e5 else r
  let r := if x &&& 0x4000 ≠ 0 then mulShift r 0x70d869a156d2a1b890bb3df62baf32f7 else r
  let r := if x &&& 0x8000 ≠ 0 then mulShift r 0x31be135f97d08fd981231505542fcfa6 else r
  let r := if x &&& 0x10000 ≠ 0 then mulShift r 0x9aa508b5b7a84e1c677de54f3e99bc9 else r
  let r := if x &&& 0x20000 ≠ 0 then mulShift r 0x5d6af8dedb81196699c329225ee604 else r
  let r := if x &&& 0x40000 ≠ 0 then mulShift r 0x2216e584f5fa1ea926041bedfe98 else r
  let r := if x &&& 0x80000 ≠ 0 then mulShift r 0x48a170391f7dc42444e8fa2 else r
  r

/-- `TickMath.tickToSqrtPriceX72`.  The out-of-range `invariant` is
modelled as `none`.  For positive ticks the ratio is inverted through
`MaxUint256`, and the final step rescales from 128 to 72 fractional bits
with ceiling rounding. -/
def tickToSqrtPriceX72 (tick : Int) : Option Int :=
  if tick < MIN_TICK ∨ MAX_TICK < tick then none
  else
    let x := tick.natAbs
    let ratio := tickRatio x
    let ratio : Int := if 0 < tick then MaxUint256.tdiv ratio else (ratio : Int)
    some (if 0 < ratio.emod Q56 then ratio.tdiv Q56 + 1 else ratio.tdiv Q56)

/-- Modelled from the spec: the helper `mostSignificantBit` (its file
`src/utils/mostSignificantBit.ts` is not among the sources) "finds the
position of the highest set bit".  Binary search over the 128-bit window
that contains every valid sqrt price. -/
def mostSignificantBit (s : Nat) : Nat :=
  let (s, r) := if s ≥ 2 ^ 64 then (s >>> 64, 64) else (s, 0)
  let (s, r) := if s ≥ 2 ^ 32 then (s >>> 32, r + 32) else (s, r)
  let (s, r) := if s ≥ 2 ^ 16 then (s >>> 16, r + 16) else (s, r)
  let (s, r) := if s ≥ 2 ^ 8 then (s >>> 8, r + 8) else (s, r)
  let (s, r) := if s ≥ 2 ^ 4 then (s >>> 4, r + 4) else (s, r)
  let (s, r) := if s ≥ 2 ^ 2 then (s >>> 2, r + 2) else (s, r)
  if s ≥ 2 then r + 1 else r

/-- Two's-complement bitwise OR of an integer with the single bit `2^k`
(what `JSBI.bitwiseOr(log2, 1 << k)` computes here): if bit `k` is clear,
adding `2^k` sets it and changes no other bit. -/
def orPow2 (a : Int) (k : Nat) : Int :=
  if (a.fdiv (2 ^ k)).emod 2 = 0 then a + 2 ^ k else a

/-- The 18-round refinement loop of `sqrtPriceX72ToTick`: square the
127-bit mantissa, renormalise, and record the integer-part bit into `log2`
(bit `63 - i` on round `i`). -/
def refineLog2 : Nat → Nat → Nat → Int → Nat × Int
  | 0, _, z, l => (z, l)
  | fuel + 1, i, z, l =>
    let z := (z * z) >>> 127
    if z ≥ 2 ^ 128 then refineLog2 fuel (i + 1) (z >>> 1) (orPow2 l (63 - i))
    else refineLog2 fuel (i + 1) z l

/-- `TickMath.sqrtPriceX72ToTick`.  Range `invariant`s are modelled as
`none`.  The final disambiguation recomputes `tickToSqrtPriceX72 tickHigh`
(short-circuited when `tickLow = tickHigh`, as in the source). -/
def sqrtPriceX72ToTick (sqrtPriceX72 : Int) : Option Int :=
  if sqrtPriceX72 < MIN_SQRT_PRICE ∨ MAX_SQRT_PRICE < sqrtPriceX72 then none
  else
    let sN := sqrtPriceX72.toNat
    let msb := mostSignificantBit sN
    let log2 : Int := ((msb : Int) - 72) * 2 ^ 64
    let z := sN <<< (127 - msb)
    let zl := refineLog2 18 0 z log2
    let logBaseSqrt10001 := zl.2 * 255738958999603826347141
    let tickHigh := (logBaseSqrt10001 + 17996007701288367970265332090599899137).fdiv (2 ^ 128)
    let sub : Int :=
      if logBaseSqrt10001 < -230154402537746701963478439606373042805014528 then
        98577143636729737466164032634120830977
      else if logBaseSqrt10001 < -162097929153559009270803518120019400513814528 then
        527810000259722480933883300202676225
      else 0
    let tickLow := (logBaseSqrt10001 - sub).fdiv (2 ^ 128)
    if tickLow = tickHigh then some tickHigh
    else match tickToSqrtPriceX72 tickHigh with
      | none => none
      | some r => if r ≤ sqrtPriceX72 then some tickHigh else some tickLow

/-! ## Arithmetic primitives -/

/-- `JSBI.divide`: truncated division; division by zero throws. -/
def jsDiv (a b : Int) : Option Int := if b = 0 then none else some (a.tdiv b)

/-- `ceilDiv` (src/utils/ceilDiv.ts): division rounding up; the
`invariant` rejects negative operands, and the inner `JSBI.divide` throws
on a zero divisor. -/
def ceilDiv (x y : Int) : Option Int :=
  if x < 0 ∨ y < 0 then none
  else if y = 0 then none
  else some (x.tdiv y + if x.tmod y ≠ 0 then 1 else 0)

/-- `fromD8`: scale a D8 liquidity up by `2^8`. -/
def fromD8 (x : Int) : Int := x * 256

/-- `toD8`: scale down by `2^8` (`JSBI.divide`, truncated). -/
def toD8 (x : Int) : Int := x.tdiv 256

/-! ## PoolMath (src/utils/poolMath.ts) -/

/-- `PoolMath.calcAmount0Delta`: `Δx = L (√P0 - √P1) / (√P0 √P1)`,
rounding away from zero for inputs (price down) and towards zero for
outputs (price up). -/
def calcAmount0Delta (sqrtP0 sqrtP1 liquidity : Int) : Option Int :=
  let priceUp := sqrtP0 < sqrtP1
  let p := if priceUp then (sqrtP1, sqrtP0) else (sqrtP0, sqrtP1)
  let numerator := liquidity * (p.1 - p.2) * Q72
  let denominator := p.1 * p.2
  if priceUp then (jsDiv numerator denominator).map Int.neg
  else ceilDiv numerator denominator

/-- `PoolMath.calcAmount1Delta`: `Δy = L (√P1 - √P0)`, inputs round up,
outputs round down. -/
def calcAmount1Delta (sqrtP0 sqrtP1 liquidity : Int) : Option Int :=
  let priceDown := sqrtP1 < sqrtP0
  let p := if priceDown then (sqrtP1, sqrtP0) else (sqrtP0, sqrtP1)
  let numerator := liquidity * (p.2 - p.1)
  if priceDown then (jsDiv numerator Q72).map Int.neg
  else ceilDiv numerator Q72

/-- The price clamp at the start of `amountsForLiquidityDeltaD8`. -/
def clampP (c lo hi : Int) : Int :=
  if c < lo then lo else if hi < c then hi else c

/-- `PoolMath.amountsForLiquidityDeltaD8`: clamp the current price into
the range, then compute both token amounts for `|Δ|` liquidity, rounding
up (inputs) for a mint and down (outputs) for a burn. -/
def amountsForLiquidityDeltaD8 (sqrtPCurrent sqrtPLower sqrtPUpper liquidityDeltaD8 : Int) :
    Option (Int × Int) :=
  if ¬ sqrtPLower < sqrtPUpper then none
  else
    let sqrtP := clampP sqrtPCurrent sqrtPLower sqrtPUpper
    let liquidity := fromD8 |liquidityDeltaD8|
    if 0 ≤ liquidityDeltaD8 then
      match calcAmount0Delta sqrtPUpper sqrtP liquidity with
      | none => none
      | some a0 =>
        match calcAmount1Delta sqrtPLower sqrtP liquidity with
        | none => none
        | some a1 => some (a0, a1)
    else
      match calcAmount0Delta sqrtP sqrtPUpper liquidity with
      | none => none
      | some a0 =>
        match calcAmount1Delta sqrtP sqrtPLower liquidity with
        | none => none
        | some a1 => some (-a0, -a1)

/-- `PoolMath.minInputAmountsForLiquidityD8`: rejects a negative
liquidity increase, otherwise `amountsForLiquidityDeltaD8`. -/
def minInputAmountsForLiquidityD8 (sqrtPCurrent sqrtPLower sqrtPUpper liquidityIncreaseD8 : Int) :
    Option (Int × Int) :=
  if ¬ 0 ≤ liquidityIncreaseD8 then none
  else amountsForLiquidityDeltaD8 sqrtPCurrent sqrtPLower sqrtPUpper liquidityIncreaseD8

/-- `PoolMath.minOutputAmountsForLiquidityD8`: rejects a negative
liquidity decrease, otherwise `amountsForLiquidityDeltaD8` on the negated
amount. -/
def minOutputAmountsForLiquidityD8 (sqrtPCurrent sqrtPLower sqrtPUpper liquidityDecreaseD8 : Int) :
    Option (Int × Int) :=
  if ¬ 0 ≤ liquidityDecreaseD8 then none
  else amountsForLiquidityDeltaD8 sqrtPCurrent sqrtPLower sqrtPUpper (-liquidityDecreaseD8)

/-- `PoolMath.maxOutputLiquidityForAmounts`: the largest liquidity a
token budget can buy; three regimes depending on where the current price
sits relative to the range, all rounding down. -/
def maxOutputLiquidityForAmounts (sqrtPCurrent sqrtPLower sqrtPUpper amount0 amount1 : Int) :
    Option Int :=
  if ¬ sqrtPLower < sqrtPUpper then none
  else if sqrtPCurrent ≤ sqrtPLower then
    jsDiv (amount0 * (sqrtPLower * sqrtPUpper)) ((sqrtPUpper - sqrtPLower) * Q72)
  else if sqrtPUpper ≤ sqrtPCurrent then
    jsDiv (amount1 * Q72) (sqrtPUpper - sqrtPLower)
  else
    match jsDiv (amount0 * (sqrtPCurrent * sqrtPUpper)) ((sqrtPUpper - sqrtPCurrent) * Q72) with
    | none => none
    | some liquidity0 =>
      match jsDiv (amount1 * Q72) (sqrtPCurrent - sqrtPLower) with
      | none => none
      | some liquidity1 => some (if liquidity0 < liquidity1 then liquidity0 else liquidity1)

/-- `PoolMath.maxOutputLiquidityD8ForAmounts`. -/
def maxOutputLiquidityD8ForAmounts (sqrtPCurrent sqrtPLower sqrtPUpper amount0 amount1 : Int) :
    Option Int :=
  (maxOutputLiquidityForAmounts sqrtPCurrent sqrtPLower sqrtPUpper amount0 amount1).map toD8

/-! ## Integer square root (`sqrt` of `@uniswap/sdk-core`)

The SDK's `sqrt` computes the floor square root of a non-negative big
integer (by Babylonian iteration, or exactly through a float for small
values).  We implement the floor square root by the classical digit
recursion, fuelled so that the kernel can evaluate it; `isqrtAux fuel n`
is the floor square root whenever `n ≤ fuel`. -/

def isqrtAux : Nat → Nat → Nat
  | 0, _ => 0
  | fuel + 1, n =>
    if n = 0 then 0
    else
      let r := 2 * isqrtAux fuel (n / 4)
      if (r + 1) * (r + 1) ≤ n then r + 1 else r

/-- Floor square root of a natural number. -/
def isqrt (n : Nat) : Nat := isqrtAux n n

/-- `sqrt` of `@uniswap/sdk-core`: floor square root; negative input
throws. -/
def sdkSqrt (v : Int) : Option Int :=
  if v < 0 then none else some (isqrt v.toNat)

/-- `encodeSqrtPriceX72(amount1, amount0)` (src/utils/misc.ts): the sqrt
of `amount1 / amount0` in Q56.72, i.e. `sqrt((amount1 << 144) / amount0)`. -/
def encodeSqrtPriceX72 (amount1 amount0 : Int) : Option Int :=
  match jsDiv (amount1 * Q144) amount0 with
  | none => none
  | some ratioX144 => sdkSqrt ratioX144

/-! ## Tier (src/entities/tier.ts) -/

/-- Immutable snapshot of one fee tier.  Token fields are omitted: no
claim in scope depends on them at the tier level. -/
structure Tier where
  liquidity : Int
  sqrtPriceX72 : Int
  sqrtGamma : Nat
  nextTickBelow : Int
  nextTickAbove : Int
deriving DecidableEq, Repr

/-- The `Tier` constructor invariants. -/
def mkTier (liquidity sqrtPriceX72 : Int) (sqrtGamma : Nat)
    (nextTickBelow nextTickAbove : Int) : Option Tier :=
  if nextTickBelow < nextTickAbove ∧ 0 < sqrtGamma ∧ sqrtGamma ≤ 100000 then
    some ⟨liquidity, sqrtPriceX72, sqrtGamma, nextTickBelow, nextTickAbove⟩
  else none

/-- `Tier.tickCurrent`: invert the tier's sqrt price to a tick, and step
one tick down when the result hits the stored upper bound of the active
tick window. -/
def Tier.tickCurrent (t : Tier) : Option Int :=
  match sqrtPriceX72ToTick t.sqrtPriceX72 with
  | none => none
  | some tick => some (if tick = t.nextTickAbove then tick - 1 else tick)

/-- `Tier.sqrtPriceAfterSlippage(slippage)`: multiply the spot price
`sqrtPriceX72² / 2^144` by `1 ∓ slippage` (as exact fractions, slippage
being `tolN / tolD`), convert both back to sqrt prices, and clamp into
the global price bounds. -/
def Tier.sqrtPriceAfterSlippage (t : Tier) (tolN tolD : Int) : Option (Int × Int) :=
  let s := t.sqrtPriceX72
  match encodeSqrtPriceX72 (s * s * (tolD - tolN)) (Q144 * tolD) with
  | none => none
  | some pLower =>
    match encodeSqrtPriceX72 (s * s * (tolD + tolN)) (Q144 * tolD) with
    | none => none
    | some pUpper =>
      some (if pLower < MIN_SQRT_PRICE then MIN_SQRT_PRICE else pLower,
            if MAX_SQRT_PRICE < pUpper then MAX_SQRT_PRICE else pUpper)

/-! ## Pool (src/entities/pool.ts) -/

/-- One token, identified by chain id and address (sdk `Token.equals`
compares exactly these). -/
structure Token where
  chainId : Nat
  address : Nat
deriving DecidableEq, Repr

/-- A pool: canonically ordered token pair, tick spacing and tiers. -/
structure Pool where
  token0 : Token
  token1 : Token
  tickSpacing : Nat
  tiers : List Tier
deriving DecidableEq, Repr

/-- `Pool.involvesToken`. -/
def Pool.involvesToken (p : Pool) (t : Token) : Bool :=
  t = p.token0 ∨ t = p.token1

/-- `Pool.chainId` (the chain id of `token0`). -/
def Pool.chainId (p : Pool) : Nat := p.token0.chainId

/-- `Pool.poolId` is `keccak256(abi.encode([address, address],
[token0.address, token1.address]))`; the ABI encoding of the ordered
address pair is injective and the hash is treated as injective, so the
pool id is modelled as the ordered address pair itself. -/
def Pool.poolId (p : Pool) : Nat × Nat := (p.token0.address, p.token1.address)

/-! ## Position (src/entities/position.ts) -/

structure Position where
  pool : Pool
  tierId : Nat
  tickLower : Int
  tickUpper : Int
  liquidityD8 : Int
  limitOrderType : Nat
  settlementSnapshotId : Int
  settled : Bool
deriving DecidableEq, Repr

/-- The `Position` constructor invariants: ordered in-range ticks, a
valid tier index, a known limit-order type, and `settled` only together
with a limit-order direction. -/
def mkPosition (pool : Pool) (tierId : Nat) (tickLower tickUpper liquidityD8 : Int)
    (limitOrderType : Nat) (settlementSnapshotId : Int) (settled : Bool) : Option Position :=
  if tickLower < tickUpper ∧ MIN_TICK ≤ tickLower ∧ tickUpper ≤ MAX_TICK ∧
      tierId < pool.tiers.length ∧ limitOrderType ≤ 2 ∧
      (settled → limitOrderType ≠ LimitOrderType.NotLimitOrder) then
    some ⟨pool, tierId, tickLower, tickUpper, liquidityD8, limitOrderType,
      settlementSnapshotId, settled⟩
  else none

/-- `Position.poolTier`: the tier the position lives in (`invariant`
when the index is out of range). -/
def Position.poolTier (p : Position) : Option Tier := p.pool.tiers.get? p.tierId

/-- `Position.sqrtPriceLower`. -/
def Position.sqrtPriceLower (p : Position) : Option Int := tickToSqrtPriceX72 p.tickLower

/-- `Position.sqrtPriceUpper`. -/
def Position.sqrtPriceUpper (p : Position) : Option Int := tickToSqrtPriceX72 p.tickUpper

/-- `Position.isLimitOrder`. -/
def Position.isLimitOrder (p : Position) : Bool :=
  p.limitOrderType = LimitOrderType.ZeroForOne ∨ p.limitOrderType = LimitOrderType.OneForZero

/-- `Position.sqrtPriceSettle`: the boundary price a limit order settles
at (`invariant` for non-limit-orders). -/
def Position.sqrtPriceSettle (p : Position) : Option Int :=
  if ¬ p.isLimitOrder then none
  else if p.limitOrderType = LimitOrderType.ZeroForOne then p.sqrtPriceUpper
  else p.sqrtPriceLower

/-- `Position._computeTokenAmounts` (the `amount0`/`amount1` getters):
the holding amounts, i.e. the amounts for withdrawing the full liquidity
at the tier's current price (or the settlement price once settled). -/
def Position.holdingAmounts (p : Position) : Option (Int × Int) :=
  match p.poolTier with
  | none => none
  | some t =>
    match p.sqrtPriceLower with
    | none => none
    | some lo =>
      match p.sqrtPriceUpper with
      | none => none
      | some hi =>
        match if p.settled then p.sqrtPriceSettle else some t.sqrtPriceX72 with
        | none => none
        | some cur => amountsForLiquidityDeltaD8 cur lo hi (-p.liquidityD8)

/-- `Position.mintAmounts`: minimum input amounts to mint the position's
liquidity at the tier's current price. -/
def Position.mintAmounts (p : Position) : Option (Int × Int) :=
  match p.poolTier with
  | none => none
  | some t =>
    match p.sqrtPriceLower with
    | none => none
    | some lo =>
      match p.sqrtPriceUpper with
      | none => none
      | some hi => amountsForLiquidityDeltaD8 t.sqrtPriceX72 lo hi p.liquidityD8

/-- `Position.mintAmountsWithSlippage(slippageTolerance)`: re-derive the
liquidity actually received from the nominal mint amounts, then price the
two tokens at the two worst tolerated prices. -/
def Position.mintAmountsWithSlippage (p : Position) (tolN tolD : Int) : Option (Int × Int) :=
  match p.poolTier with
  | none => none
  | some t =>
    match p.sqrtPriceLower with
    | none => none
    | some lo =>
      match p.sqrtPriceUpper with
      | none => none
      | some hi =>
        match amountsForLiquidityDeltaD8 t.sqrtPriceX72 lo hi p.liquidityD8 with
        | none => none
        | some nominal =>
          match maxOutputLiquidityForAmounts t.sqrtPriceX72 lo hi nominal.1 nominal.2 with
          | none => none
          | some liquidityRaw =>
            let liquidityD8 := toD8 liquidityRaw
            match t.sqrtPriceAfterSlippage tolN tolD with
            | none => none
            | some sl =>
              match minInputAmountsForLiquidityD8 sl.2 lo hi liquidityD8 with
              | none => none
              | some a0 =>
                match minInputAmountsForLiquidityD8 sl.1 lo hi liquidityD8 with
                | none => none
                | some a1 => some (a0.1, a1.2)

/-- `Position.burnAmountsWithSlippage(slippageTolerance)`: minimum output
amounts from burning the position's liquidity, evaluated at the two worst
tolerated prices (settled positions use the settlement boundary). -/
def Position.burnAmountsWithSlippage (p : Position) (tolN tolD : Int) : Option (Int × Int) :=
  match p.poolTier with
  | none => none
  | some t =>
    match p.sqrtPriceLower with
    | none => none
    | some lo =>
      match p.sqrtPriceUpper with
      | none => none
      | some hi =>
        match t.sqrtPriceAfterSlippage tolN tolD with
        | none => none
        | some sl =>
          if p.settled then
            minOutputAmountsForLiquidityD8
              (if p.limitOrderType = LimitOrderType.ZeroForOne then hi else lo)
              lo hi p.liquidityD8
          else
            match minOutputAmountsForLiquidityD8 sl.2 lo hi p.liquidityD8 with
            | none => none
            | some a0 =>
              match minOutputAmountsForLiquidityD8 sl.1 lo hi p.liquidityD8 with
              | none => none
              | some a1 => some (a0.1, a1.2)

/-! ## Route (src/entities/route.ts) -/

structure Route where
  pools : List Pool
  tokenPath : List Token
  tierChoicesList : List Nat
  input : Token
  output : Token
deriving DecidableEq, Repr

/-- The per-pool tier-mask validation of the `Route` constructor: each
mask is reduced modulo `2^tierCount`, then the original mask must not
exceed `ALL_TIERS` and the reduced mask must be non-zero; the reduced
masks are kept. -/
def checkTierChoices (pools : List Pool) (tierChoicesList : List Nat) : Option (List Nat) :=
  (pools.zip tierChoicesList).mapM fun pc =>
    let cleaned := pc.2 % 2 ^ pc.1.tiers.length
    if pc.2 ≤ MAX_TIER_CHOICES ∧ 0 < cleaned then some cleaned else none

/-- The token-path walk of the `Route` constructor: starting from the
input token, each pool must involve the running token, which is then
swapped for the pool's other token.  Returns the path tail and the final
token. -/
def chainTokens : Token → List Pool → Option (List Token × Token)
  | tok, [] => some ([], tok)
  | tok, p :: rest =>
    if tok = p.token0 then
      (chainTokens p.token1 rest).map fun r => (p.token1 :: r.1, r.2)
    else if tok = p.token1 then
      (chainTokens p.token0 rest).map fun r => (p.token0 :: r.1, r.2)
    else none

/-- The `Route` constructor: non-empty pool list, one chain id, input in
the first pool, output in the last pool, valid tier masks, and a token
path chaining input to output.  Native-currency wrapping is out of scope,
so `input.wrapped = input`. -/
def mkRoute (pools : List Pool) (tierChoicesList : List Nat) (input output : Token) :
    Option Route :=
  match pools with
  | [] => none
  | p0 :: rest =>
    if ¬ (p0 :: rest).all (fun p => p.chainId = p0.chainId) then none
    else if ¬ p0.involvesToken input then none
    else if ¬ ((p0 :: rest).getLast (by simp)).involvesToken output then none
    else if ¬ tierChoicesList.length = (p0 :: rest).length then none
    else
      match checkTierChoices (p0 :: rest) tierChoicesList with
      | none => none
      | some cleaned =>
        match chainTokens input (p0 :: rest) with
        | none => none
        | some pr =>
          if pr.2 = output then
            some ⟨p0 :: rest, input :: pr.1, cleaned, input, output⟩
          else none

/-! ## Trade (src/entities/trade.ts) -/

inductive TradeType where
  | exactInput
  | exactOutput
deriving DecidableEq, Repr

/-- One swap leg of a trade: a route plus its input and output
`CurrencyAmount`s (currency and raw amount). -/
structure Swap where
  route : Route
  inputCurrency : Token
  inputAmount : Int
  outputCurrency : Token
  outputAmount : Int
deriving DecidableEq, Repr

structure Trade where
  swaps : List Swap
  tradeType : TradeType
deriving DecidableEq, Repr

/-- The `Trade` constructor: all routes share the first swap's input and
output (wrapped) currencies, and no pool id may repeat across the union
of all routes' pools. -/
def mkTrade (routes : List Swap) (tradeType : TradeType) : Option Trade :=
  match routes with
  | [] => none
  | r0 :: rest =>
    if ¬ (r0 :: rest).all (fun s => s.route.input = r0.inputCurrency) then none
    else if ¬ (r0 :: rest).all (fun s => s.route.output = r0.outputCurrency) then none
    else
      let allPools := ((r0 :: rest).map (fun s => s.route.pools)).flatten
      if allPools.length = (allPools.map Pool.poolId).dedup.length then
        some ⟨r0 :: rest, tradeType⟩
      else none

/-- `Trade.minimumAmountOut(slippageTolerance)`: for an exact-output
trade the output is fixed; for an exact-input trade the output is
deflated by `1 / (1 + tolerance)` (truncated).  A tolerance below zero
throws. -/
def tradeMinimumAmountOut (tradeType : TradeType) (tolN tolD amountOut : Int) : Option Int :=
  if tolN * 1 < 0 * tolD then none
  else match tradeType with
    | .exactOutput => some amountOut
    | .exactInput => some ((tolD * amountOut).tdiv (tolD + tolN))

/-- `Trade.maximumAmountIn(slippageTolerance)`: for an exact-input trade
the input is fixed; for an exact-output trade the input is inflated by
`1 + tolerance` (truncated).  A tolerance below zero throws. -/
def tradeMaximumAmountIn (tradeType : TradeType) (tolN tolD amountIn : Int) : Option Int :=
  if tolN * 1 < 0 * tolD then none
  else match tradeType with
    | .exactInput => some amountIn
    | .exactOutput => some (((tolD + tolN) * amountIn).tdiv tolD)

/-! ## Swap analytics (src/utils/getInputAmountDistribution.ts) -/

/-- `getInputAmountDistribution(hop)`: each tier's share of the hop's
total input as a `Percent` (a numerator/denominator pair); an all-zero
hop falls back to an equal split. -/
def getInputAmountDistribution (tierAmountsIn : List Int) : List (Int × Int) :=
  let sumAmtIn := tierAmountsIn.foldl (· + ·) 0
  if sumAmtIn = 0 then tierAmountsIn.map fun _ => (1, (tierAmountsIn.length : Int))
  else tierAmountsIn.map fun amtIn => (amtIn, sumAmtIn)

/-! ## Pure value forms (proof helpers)

Each faithful function above returns `Option`; the helpers below give the
plain value it returns on valid inputs, proved equal by the evaluation
lemmas further down. -/

/-- The value `ceilDiv x y` returns on valid inputs. -/
def cdivP (x y : Int) : Int := x.tdiv y + if x.tmod y ≠ 0 then 1 else 0

/-- Mint-side token0 amount: `⌈L (hi - p̂) Q72 / (hi p̂)⌉` at the clamped
price `p̂`. -/
def mintA0 (c lo hi L : Int) : Int :=
  cdivP (L * (hi - clampP c lo hi) * Q72) (hi * clampP c lo hi)

/-- Mint-side token1 amount: `⌈L (p̂ - lo) / Q72⌉`. -/
def mintA1 (c lo hi L : Int) : Int :=
  cdivP (L * (clampP c lo hi - lo)) Q72

/-- Burn-side token0 amount: `⌊L (hi - p̂) Q72 / (hi p̂)⌋`. -/
def burnA0 (c lo hi L : Int) : Int :=
  (L * (hi - clampP c lo hi) * Q72).tdiv (hi * clampP c lo hi)

/-- Burn-side token1 amount: `⌊L (p̂ - lo) / Q72⌋`. -/
def burnA1 (c lo hi L : Int) : Int :=
  (L * (clampP c lo hi - lo)).tdiv Q72

/-- The value `maxOutputLiquidityForAmounts` returns on valid inputs. -/
def maxLiqP (c lo hi a0 a1 : Int) : Int :=
  if c ≤ lo then (a0 * (lo * hi)).tdiv ((hi - lo) * Q72)
  else if hi ≤ c then (a1 * Q72).tdiv (hi - lo)
  else
    let liquidity0 := (a0 * (c * hi)).tdiv ((hi - c) * Q72)
    let liquidity1 := (a1 * Q72).tdiv (c - lo)
    if liquidity0 < liquidity1 then liquidity0 else liquidity1

/-! ## Arithmetic lemmas -/

theorem tdiv_nonneg' {a b : Int} (ha : 0 ≤ a) (hb : 0 ≤ b) : 0 ≤ a.tdiv b := by
  rw [Int.tdiv_eq_ediv ha hb]; exact Int.ediv_nonneg ha hb

theorem tdiv_mul_le {a b : Int} (ha : 0 ≤ a) (hb : 0 < b) : a.tdiv b * b ≤ a := by
  rw [Int.tdiv_eq_ediv ha hb.le]
  have h := Int.ediv_add_emod a b
  have h2 := Int.emod_nonneg a hb.ne'
  linarith [h, h2]

theorem le_tdiv {a b k : Int} (ha : 0 ≤ a) (hb : 0 < b) (h : k * b ≤ a) : k ≤ a.tdiv b := by
  rw [Int.tdiv_eq_ediv ha hb.le]
  exact (Int.le_ediv_iff_mul_le hb).2 h

theorem tdiv_le {a b k : Int} (ha : 0 ≤ a) (hb : 0 < b) (h : a ≤ k * b) : a.tdiv b ≤ k := by
  rw [Int.tdiv_eq_ediv ha hb.le]
  calc a / b ≤ k * b / b := Int.ediv_le_ediv hb h
    _ = k := Int.mul_ediv_cancel k hb.ne'

theorem tdiv_lt {a b k : Int} (ha : 0 ≤ a) (hb : 0 < b) (h : a < k * b) : a.tdiv b < k := by
  have h1 : a.tdiv b * b ≤ a := tdiv_mul_le ha hb
  nlinarith [tdiv_nonneg' ha hb.le]

theorem tdiv_mono_num {a a' b : Int} (ha : 0 ≤ a) (h : a ≤ a') (hb : 0 < b) :
    a.tdiv b ≤ a'.tdiv b := by
  rw [Int.tdiv_eq_ediv ha hb.le, Int.tdiv_eq_ediv (le_trans ha h) hb.le]
  exact Int.ediv_le_ediv hb h

theorem tdiv_anti_den {a b b' : Int} (ha : 0 ≤ a) (hb : 0 < b) (h : b ≤ b') :
    a.tdiv b' ≤ a.tdiv b := by
  have hb' : 0 < b' := lt_of_lt_of_le hb h
  have h1 : a.tdiv b' * b' ≤ a := tdiv_mul_le ha hb'
  have h2 : 0 ≤ a.tdiv b' := tdiv_nonneg' ha hb'.le
  exact le_tdiv ha hb (by nlinarith)

theorem cdivP_nonneg {x y : Int} (hx : 0 ≤ x) (hy : 0 < y) : 0 ≤ cdivP x y := by
  unfold cdivP
  have := tdiv_nonneg' hx hy.le
  split <;> omega

theorem le_mul_cdivP {x y : Int} (hx : 0 ≤ x) (hy : 0 < y) : x ≤ cdivP x y * y := by
  unfold cdivP
  have h1 := Int.tdiv_eq_ediv hx hy.le
  have h2 := Int.tmod_eq_emod hx hy.le
  have h3 := Int.ediv_add_emod x y
  have h4 := Int.emod_nonneg x hy.ne'
  have h5 := Int.emod_lt_of_pos x hy
  rw [h1, h2]
  split
  · nlinarith
  · rename_i hm
    rw [not_not] at hm
    nlinarith [h3, hm]

theorem cdivP_le {x y k : Int} (hx : 0 ≤ x) (hy : 0 < y) (h : x ≤ k * y) : cdivP x y ≤ k := by
  unfold cdivP
  have h1 := Int.tdiv_eq_ediv hx hy.le
  have h2 := Int.tmod_eq_emod hx hy.le
  have h3 := Int.ediv_add_emod x y
  have h4 := Int.emod_nonneg x hy.ne'
  have htd : x.tdiv y ≤ k := tdiv_le hx hy h
  split
  · rename_i hne
    rw [h2] at hne
    rcases lt_or_eq_of_le htd with h5 | h5
    · omega
    · exfalso
      rw [h1] at h5
      rw [h5] at h3
      have : x % y = 0 := by linarith
      exact hne this
  · omega

theorem cdivP_zero {y : Int} : cdivP 0 y = 0 := by
  unfold cdivP
  simp [Int.zero_tdiv, Int.zero_tmod]

theorem cdivP_mono_num {x x' y : Int} (hx : 0 ≤ x) (h : x ≤ x') (hy : 0 < y) :
    cdivP x y ≤ cdivP x' y :=
  cdivP_le hx hy (h.trans (le_mul_cdivP (hx.trans h) hy))

theorem cdivP_anti_den {x y y' : Int} (hx : 0 ≤ x) (hy : 0 < y) (h : y ≤ y') :
    cdivP x y' ≤ cdivP x y := by
  have hy' : 0 < y' := lt_of_lt_of_le hy h
  refine cdivP_le hx hy' ?_
  have h1 := le_mul_cdivP hx hy
  have h2 := cdivP_nonneg hx hy
  nlinarith

theorem clampP_le_hi {c lo hi : Int} (h : lo ≤ hi) : clampP c lo hi ≤ hi := by
  unfold clampP; split_ifs <;> omega

theorem lo_le_clampP {c lo hi : Int} (h : lo ≤ hi) : lo ≤ clampP c lo hi := by
  unfold clampP; split_ifs <;> omega

theorem clampP_mono {c c' lo hi : Int} (hlh : lo ≤ hi) (h : c ≤ c') :
    clampP c lo hi ≤ clampP c' lo hi := by
  unfold clampP; split_ifs <;> omega

theorem clampP_of_le_lo {c lo hi : Int} (hc : c ≤ lo) (h : lo ≤ hi) : clampP c lo hi = lo := by
  unfold clampP; split_ifs <;> omega

theorem clampP_of_hi_le {c lo hi : Int} (hc : hi ≤ c) (h : lo ≤ hi) : clampP c lo hi = hi := by
  unfold clampP; split_ifs <;> omega

theorem clampP_of_mem {c lo hi : Int} (h1 : lo < c) (h2 : c < hi) : clampP c lo hi = c := by
  unfold clampP; split_ifs <;> omega

/-! ## Floor-square-root lemmas -/

theorem isqrtAux_spec : ∀ fuel n, n ≤ fuel →
    isqrtAux fuel n * isqrtAux fuel n ≤ n ∧ n < (isqrtAux fuel n + 1) * (isqrtAux fuel n + 1) := by
  intro fuel
  induction fuel with
  | zero => intro n hn; interval_cases n; simp [isqrtAux]
  | succ f ih =>
    intro n hn
    by_cases h0 : n = 0
    · subst h0; simp [isqrtAux]
    · have hrec : n / 4 ≤ f := by
        have : n / 4 < n := Nat.div_lt_self (Nat.pos_of_ne_zero h0) (by omega)
        omega
      obtain ⟨h1, h2⟩ := ih (n / 4) hrec
      have hmod := Nat.div_add_mod n 4
      have hmodlt : n % 4 < 4 := Nat.mod_lt n (by omega)
      unfold isqrtAux
      rw [if_neg h0]
      dsimp only
      set r := isqrtAux f (n / 4) with hr
      have elow : 4 * (r * r) ≤ 4 * (n / 4) := Nat.mul_le_mul_left 4 h1

      have ehigh : 4 * (n / 4 + 1) ≤ 4 * ((r + 1) * (r + 1)) :=
        Nat.mul_le_mul_left 4 (Nat.succ_le_of_lt h2)
      have e3 : 4 * (n / 4) ≤ n := by omega
      have e4 : n < 4 * (n / 4 + 1) := by omega
      split
      · rename_i hle
        refine ⟨hle, ?_⟩
        have e5 : (2 * r + 1 + 1) * (2 * r + 1 + 1) = 4 * ((r + 1) * (r + 1)) := by ring
        linarith
      · rename_i hgt
        push_neg at hgt
        refine ⟨?_, hgt⟩
        have e6 : 2 * r * (2 * r) = 4 * (r * r) := by ring
        linarith

theorem isqrt_spec (n : Nat) : isqrt n * isqrt n ≤ n ∧ n < (isqrt n + 1) * (isqrt n + 1) :=
  isqrtAux_spec n n le_rfl

theorem isqrt_le_of_le {m n : Nat} (h : m ≤ n) : isqrt m ≤ isqrt n := by
  obtain ⟨hm1, _⟩ := isqrt_spec m
  obtain ⟨_, hn2⟩ := isqrt_spec n
  by_contra hc
  push_neg at hc
  nlinarith

theorem isqrt_mul_self (k : Nat) : isqrt (k * k) = k := by
  obtain ⟨h1, h2⟩ := isqrt_spec (k * k)
  nlinarith [h1, h2]

/-! ## Evaluation lemmas: each `Option` function on valid inputs -/

theorem ceilDiv_eq {x y : Int} (hx : 0 ≤ x) (hy : 0 < y) : ceilDiv x y = some (cdivP x y) := by
  unfold ceilDiv cdivP
  rw [if_neg (by omega), if_neg (by omega)]

theorem calc0_mint_eq {u p L : Int} (hp : 0 < p) (hpu : p ≤ u) (hL : 0 ≤ L) :
    calcAmount0Delta u p L = some (cdivP (L * (u - p) * Q72) (u * p)) := by
  unfold calcAmount0Delta
  dsimp only
  rw [if_neg (not_lt.2 hpu), if_neg (not_lt.2 hpu)]
  exact ceilDiv_eq (mul_nonneg (mul_nonneg hL (by omega)) (by norm_num [Q72]))
    (mul_pos (lt_of_lt_of_le hp hpu) hp)

theorem calc0_burn_eq {u p L : Int} (hp : 0 < p) (hpu : p ≤ u) (hL : 0 ≤ L) :
    calcAmount0Delta p u L = some (-((L * (u - p) * Q72).tdiv (u * p))) := by
  unfold calcAmount0Delta
  dsimp only
  rcases lt_or_eq_of_le hpu with h | h
  · rw [if_pos h, if_pos h]
    unfold jsDiv
    rw [if_neg (mul_pos (lt_trans hp h) hp).ne']
    rfl
  · subst h
    rw [if_neg (lt_irrefl p), if_neg (lt_irrefl p)]
    rw [sub_self, mul_zero, zero_mul, ceilDiv_eq le_rfl (mul_pos hp hp), cdivP_zero,
      Int.zero_tdiv, neg_zero]

theorem calc1_mint_eq {lo p L : Int} (hlo : lo ≤ p) (hL : 0 ≤ L) :
    calcAmount1Delta lo p L = some (cdivP (L * (p - lo)) Q72) := by
  unfold calcAmount1Delta
  dsimp only
  rw [if_neg (not_lt.2 hlo), if_neg (not_lt.2 hlo)]
  exact ceilDiv_eq (mul_nonneg hL (by omega)) (by norm_num [Q72])

theorem calc1_burn_eq {lo p L : Int} (hlo : lo ≤ p) (hL : 0 ≤ L) :
    calcAmount1Delta p lo L = some (-((L * (p - lo)).tdiv Q72)) := by
  unfold calcAmount1Delta
  dsimp only
  rcases lt_or_eq_of_le hlo with h | h
  · rw [if_pos h, if_pos h]
    unfold jsDiv
    rw [if_neg (by norm_num [Q72])]
    rfl
  · subst h
    rw [if_neg (lt_irrefl lo), if_neg (lt_irrefl lo)]
    rw [sub_self, mul_zero, ceilDiv_eq le_rfl (by norm_num [Q72]), cdivP_zero,
      Int.zero_tdiv, neg_zero]

theorem amountsDelta_mint_eq {c lo hi d8 : Int} (h0 : 0 < lo) (hlh : lo < hi) (hd : 0 ≤ d8) :
    amountsForLiquidityDeltaD8 c lo hi d8
      = some (mintA0 c lo hi (fromD8 d8), mintA1 c lo hi (fromD8 d8)) := by
  unfold amountsForLiquidityDeltaD8
  rw [if_neg (by omega)]
  dsimp only
  rw [abs_of_nonneg hd, if_pos hd]
  have hplo : lo ≤ clampP c lo hi := lo_le_clampP hlh.le
  have hphi : clampP c lo hi ≤ hi := clampP_le_hi hlh.le
  have hL : (0 : Int) ≤ fromD8 d8 := by unfold fromD8; positivity
  rw [calc0_mint_eq (by omega) hphi hL, calc1_mint_eq hplo hL]
  rfl

theorem amountsDelta_burn_eq {c lo hi d8 : Int} (h0 : 0 < lo) (hlh : lo < hi) (hd : d8 < 0) :
    amountsForLiquidityDeltaD8 c lo hi d8
      = some (burnA0 c lo hi (fromD8 (-d8)), burnA1 c lo hi (fromD8 (-d8))) := by
  unfold amountsForLiquidityDeltaD8
  rw [if_neg (by omega)]
  dsimp only
  rw [abs_of_neg hd, if_neg (by omega)]
  have hplo : lo ≤ clampP c lo hi := lo_le_clampP hlh.le
  have hphi : clampP c lo hi ≤ hi := clampP_le_hi hlh.le
  have hL : (0 : Int) ≤ fromD8 (-d8) := by unfold fromD8; nlinarith
  rw [calc0_burn_eq (by omega) hphi hL, calc1_burn_eq hplo hL]
  unfold burnA0 burnA1
  simp

theorem maxOutput_eq {c lo hi a0 a1 : Int} (hlh : lo < hi) :
    maxOutputLiquidityForAmounts c lo hi a0 a1 = some (maxLiqP c lo hi a0 a1) := by
  unfold maxOutputLiquidityForAmounts maxLiqP
  rw [if_neg (by omega)]
  by_cases h1 : c ≤ lo
  · rw [if_pos h1, if_pos h1]
    unfold jsDiv
    rw [if_neg (by norm_num [Q72]; omega)]
  · rw [if_neg h1, if_neg h1]
    by_cases h2 : hi ≤ c
    · rw [if_pos h2, if_pos h2]
      unfold jsDiv
      rw [if_neg (by omega)]
    · rw [if_neg h2, if_neg h2]
      unfold jsDiv
      rw [if_neg (by norm_num [Q72]; omega), if_neg (by omega)]

theorem minInput_eq {c lo hi d8 : Int} (hd : 0 ≤ d8) :
    minInputAmountsForLiquidityD8 c lo hi d8 = amountsForLiquidityDeltaD8 c lo hi d8 := by
  unfold minInputAmountsForLiquidityD8
  rw [if_neg (by omega)]

theorem minOutput_eq {c lo hi d8 : Int} (hd : 0 ≤ d8) :
    minOutputAmountsForLiquidityD8 c lo hi d8 = amountsForLiquidityDeltaD8 c lo hi (-d8) := by
  unfold minOutputAmountsForLiquidityD8
  rw [if_neg (by omega)]

/-! ## Monotonicity, non-negativity and duality of the amount formulas -/

theorem mintA0_nonneg {c lo hi L : Int} (h0 : 0 < lo) (hlh : lo < hi) (hL : 0 ≤ L) :
    0 ≤ mintA0 c lo hi L := by
  have h1 := lo_le_clampP (c := c) hlh.le
  have h2 := clampP_le_hi (c := c) hlh.le
  exact cdivP_nonneg (mul_nonneg (mul_nonneg hL (by omega)) (by norm_num [Q72]))
    (mul_pos (by omega) (by omega))

theorem mintA1_nonneg {c lo hi L : Int} (h0 : 0 < lo) (hlh : lo < hi) (hL : 0 ≤ L) :
    0 ≤ mintA1 c lo hi L := by
  have h1 := lo_le_clampP (c := c) hlh.le
  exact cdivP_nonneg (mul_nonneg hL (by omega)) (by norm_num [Q72])

theorem burnA0_nonneg {c lo hi L : Int} (h0 : 0 < lo) (hlh : lo < hi) (hL : 0 ≤ L) :
    0 ≤ burnA0 c lo hi L := by
  have h1 := lo_le_clampP (c := c) hlh.le
  have h2 := clampP_le_hi (c := c) hlh.le
  exact tdiv_nonneg' (mul_nonneg (mul_nonneg hL (by omega)) (by norm_num [Q72]))
    (mul_nonneg (by omega) (by omega))

theorem burnA1_nonneg {c lo hi L : Int} (h0 : 0 < lo) (hlh : lo < hi) (hL : 0 ≤ L) :
    0 ≤ burnA1 c lo hi L := by
  have h1 := lo_le_clampP (c := c) hlh.le
  exact tdiv_nonneg' (mul_nonneg hL (by omega)) (by norm_num [Q72])

theorem mintA0_anti {c c' lo hi L : Int} (h0 : 0 < lo) (hlh : lo < hi) (hL : 0 ≤ L)
    (hcc : c ≤ c') : mintA0 c' lo hi L ≤ mintA0 c lo hi L := by
  unfold mintA0
  have h1 := lo_le_clampP (c := c) hlh.le
  have h2 := clampP_le_hi (c := c) hlh.le
  have h1' := lo_le_clampP (c := c') hlh.le
  have h2' := clampP_le_hi (c := c') hlh.le
  have hmono := clampP_mono hlh.le hcc
  set p := clampP c lo hi
  set q := clampP c' lo hi
  have hnum : L * (hi - q) * Q72 ≤ L * (hi - p) * Q72 := by
    have hq72 : (0 : Int) < Q72 := by norm_num [Q72]
    nlinarith [mul_nonneg (mul_nonneg hL (sub_nonneg.2 hmono)) hq72.le]
  have hden : hi * p ≤ hi * q := by nlinarith
  calc cdivP (L * (hi - q) * Q72) (hi * q)
      ≤ cdivP (L * (hi - p) * Q72) (hi * q) :=
        cdivP_mono_num (mul_nonneg (mul_nonneg hL (by omega)) (by norm_num [Q72])) hnum
          (mul_pos (by omega) (by omega))
    _ ≤ cdivP (L * (hi - p) * Q72) (hi * p) :=
        cdivP_anti_den (mul_nonneg (mul_nonneg hL (by omega)) (by norm_num [Q72]))
          (mul_pos (by omega) (by omega)) hden

theorem mintA1_mono {c c' lo hi L : Int} (h0 : 0 < lo) (hlh : lo < hi) (hL : 0 ≤ L)
    (hcc : c ≤ c') : mintA1 c lo hi L ≤ mintA1 c' lo hi L := by
  unfold mintA1
  have h1 := lo_le_clampP (c := c) hlh.le
  have hmono := clampP_mono hlh.le hcc
  exact cdivP_mono_num (mul_nonneg hL (by omega)) (by nlinarith) (by norm_num [Q72])

theorem burnA0_anti {c c' lo hi L : Int} (h0 : 0 < lo) (hlh : lo < hi) (hL : 0 ≤ L)
    (hcc : c ≤ c') : burnA0 c' lo hi L ≤ burnA0 c lo hi L := by
  unfold burnA0
  have h1 := lo_le_clampP (c := c) hlh.le
  have h2 := clampP_le_hi (c := c) hlh.le
  have h1' := lo_le_clampP (c := c') hlh.le
  have h2' := clampP_le_hi (c := c') hlh.le
  have hmono := clampP_mono hlh.le hcc
  set p := clampP c lo hi
  set q := clampP c' lo hi
  have hnum : L * (hi - q) * Q72 ≤ L * (hi - p) * Q72 := by
    have hq72 : (0 : Int) < Q72 := by norm_num [Q72]
    nlinarith [mul_nonneg (mul_nonneg hL (sub_nonneg.2 hmono)) hq72.le]
  have hden : hi * p ≤ hi * q := by nlinarith
  calc (L * (hi - q) * Q72).tdiv (hi * q)
      ≤ (L * (hi - p) * Q72).tdiv (hi * q) :=
        tdiv_mono_num (mul_nonneg (mul_nonneg hL (by omega)) (by norm_num [Q72])) hnum
          (mul_pos (by omega) (by omega))
    _ ≤ (L * (hi - p) * Q72).tdiv (hi * p) :=
        tdiv_anti_den (mul_nonneg (mul_nonneg hL (by omega)) (by norm_num [Q72]))
          (mul_pos (by omega) (by omega)) hden

theorem burnA1_mono {c c' lo hi L : Int} (h0 : 0 < lo) (hlh : lo < hi) (hL : 0 ≤ L)
    (hcc : c ≤ c') : burnA1 c lo hi L ≤ burnA1 c' lo hi L := by
  unfold burnA1
  have h1 := lo_le_clampP (c := c) hlh.le
  have hmono := clampP_mono hlh.le hcc
  exact tdiv_mono_num (mul_nonneg hL (by omega)) (by nlinarith) (by norm_num [Q72])

theorem maxLiqP_nonneg {c lo hi a0 a1 : Int} (h0 : 0 < lo) (hlh : lo < hi)
    (ha0 : 0 ≤ a0) (ha1 : 0 ≤ a1) : 0 ≤ maxLiqP c lo hi a0 a1 := by
  unfold maxLiqP
  have hq : (0 : Int) < Q72 := by norm_num [Q72]
  rcases le_or_lt c lo with h1 | h1
  · rw [if_pos h1]
    exact tdiv_nonneg' (mul_nonneg ha0 (by nlinarith)) (by nlinarith)
  · rw [if_neg (by omega)]
    rcases le_or_lt hi c with h2 | h2
    · rw [if_pos h2]
      exact tdiv_nonneg' (mul_nonneg ha1 hq.le) (by omega)
    · rw [if_neg (by omega)]
      dsimp only
      split
      · exact tdiv_nonneg' (mul_nonneg ha0 (by nlinarith)) (by nlinarith)
      · exact tdiv_nonneg' (mul_nonneg ha1 hq.le) (by omega)

/-- The mint/liquidity duality: re-deriving the liquidity from the mint
amounts (rounding down, then truncating to a D8 multiple) and re-pricing
that liquidity never exceeds the original mint amounts. -/
theorem maxLiqP_duality {c lo hi L : Int} (h0 : 0 < lo) (hlh : lo < hi) (hL : 0 ≤ L) :
    mintA0 c lo hi (fromD8 (toD8 (maxLiqP c lo hi (mintA0 c lo hi L) (mintA1 c lo hi L))))
        ≤ mintA0 c lo hi L ∧
    mintA1 c lo hi (fromD8 (toD8 (maxLiqP c lo hi (mintA0 c lo hi L) (mintA1 c lo hi L))))
        ≤ mintA1 c lo hi L := by
  have hq : (0 : Int) < Q72 := by norm_num [Q72]
  set A0 := mintA0 c lo hi L with hA0
  set A1 := mintA1 c lo hi L with hA1
  have hA0n : 0 ≤ A0 := mintA0_nonneg h0 hlh hL
  have hA1n : 0 ≤ A1 := mintA1_nonneg h0 hlh hL
  set Lr := maxLiqP c lo hi A0 A1 with hLr
  have hLrn : 0 ≤ Lr := maxLiqP_nonneg h0 hlh hA0n hA1n
  set Lq := fromD8 (toD8 Lr) with hLq
  have hLqLr : Lq ≤ Lr := by
    have := tdiv_mul_le hLrn (by norm_num : (0:Int) < 256)
    unfold fromD8 toD8 at *
    omega
  have hLqn : 0 ≤ Lq := by
    have := tdiv_nonneg' hLrn (by norm_num : (0:Int) ≤ 256)
    unfold fromD8 toD8 at *
    omega
  rcases le_or_lt c lo with hre | hre
  · -- price at or below the range: p̂ = lo, A1-side is zero
    have hp : clampP c lo hi = lo := clampP_of_le_lo hre hlh.le
    have hLrval : Lr = (A0 * (lo * hi)).tdiv ((hi - lo) * Q72) := by
      rw [hLr]; unfold maxLiqP; rw [if_pos hre]
    have hLrle : Lr * ((hi - lo) * Q72) ≤ A0 * (lo * hi) := by
      rw [hLrval]
      exact tdiv_mul_le (mul_nonneg hA0n (by nlinarith)) (by nlinarith)
    constructor
    · unfold mintA0
      rw [hp]
      refine cdivP_le (mul_nonneg (mul_nonneg hLqn (by omega)) hq.le)
        (mul_pos (by omega) h0) ?_
      have hdpos : (0 : Int) ≤ (hi - lo) * Q72 := by nlinarith
      have h1 := mul_le_mul_of_nonneg_right hLqLr hdpos
      calc Lq * (hi - lo) * Q72 = Lq * ((hi - lo) * Q72) := by ring
        _ ≤ A0 * (lo * hi) := le_trans h1 hLrle
        _ = A0 * (hi * lo) := by ring
    · unfold mintA1
      rw [hp, sub_self, mul_zero, cdivP_zero]
      exact hA1n
  · rcases le_or_lt hi c with hre2 | hre2
    · -- price at or above the range: p̂ = hi, A0-side is zero
      have hp : clampP c lo hi = hi := clampP_of_hi_le hre2 hlh.le
      have hLrval : Lr = (A1 * Q72).tdiv (hi - lo) := by
        rw [hLr]; unfold maxLiqP; rw [if_neg (by omega), if_pos hre2]
      have hLrle : Lr * (hi - lo) ≤ A1 * Q72 := by
        rw [hLrval]
        exact tdiv_mul_le (mul_nonneg hA1n hq.le) (by omega)
      constructor
      · unfold mintA0
        rw [hp, sub_self, mul_zero, zero_mul, cdivP_zero]
        exact hA0n
      · unfold mintA1
        rw [hp]
        refine cdivP_le (mul_nonneg hLqn (by omega)) hq ?_
        have step := mul_le_mul_of_nonneg_right hLqLr (show (0 : Int) ≤ hi - lo by omega)
        linarith [step, hLrle]
    · -- price inside the range: p̂ = c, the minimum of both bounds
      have hp : clampP c lo hi = c := clampP_of_mem hre hre2
      have hLrval : Lr = (if (A0 * (c * hi)).tdiv ((hi - c) * Q72) < (A1 * Q72).tdiv (c - lo)
          then (A0 * (c * hi)).tdiv ((hi - c) * Q72) else (A1 * Q72).tdiv (c - lo)) := by
        rw [hLr]; unfold maxLiqP; rw [if_neg (by omega), if_neg (by omega)]
      have hLr0 : Lr ≤ (A0 * (c * hi)).tdiv ((hi - c) * Q72) := by
        rw [hLrval]; split <;> omega
      have hLr1 : Lr ≤ (A1 * Q72).tdiv (c - lo) := by
        rw [hLrval]; split <;> omega
      have hb0 : (A0 * (c * hi)).tdiv ((hi - c) * Q72) * ((hi - c) * Q72) ≤ A0 * (c * hi) :=
        tdiv_mul_le (mul_nonneg hA0n (by nlinarith)) (by nlinarith)
      have hb1 : (A1 * Q72).tdiv (c - lo) * (c - lo) ≤ A1 * Q72 :=
        tdiv_mul_le (mul_nonneg hA1n hq.le) (by omega)
      constructor
      · unfold mintA0
        rw [hp]
        refine cdivP_le (mul_nonneg (mul_nonneg hLqn (by omega)) hq.le)
          (mul_pos (by omega) (by omega)) ?_
        have hd0 : (0 : Int) ≤ (hi - c) * Q72 := by nlinarith
        have step := mul_le_mul_of_nonneg_right (hLqLr.trans hLr0) hd0
        nlinarith [step, hb0]
      · unfold mintA1
        rw [hp]
        refine cdivP_le (mul_nonneg hLqn (by omega)) hq ?_
        have step := mul_le_mul_of_nonneg_right (hLqLr.trans hLr1)
          (show (0 : Int) ≤ c - lo by omega)
        linarith [step, hb1]

/-! ## Bounds on the slippage-adjusted sqrt prices -/

theorem encode_lower_le {c tolN tolD pl : Int} (hcpos : 0 < c) (hn : 0 ≤ tolN) (hd : 0 < tolD)
    (h : encodeSqrtPriceX72 (c * c * (tolD - tolN)) (Q144 * tolD) = some pl) : pl ≤ c := by
  have hq144 : (0 : Int) < Q144 := by norm_num [Q144]
  have hden : (0 : Int) < Q144 * tolD := mul_pos hq144 hd
  unfold encodeSqrtPriceX72 jsDiv at h
  rw [if_neg hden.ne'] at h
  dsimp only [sdkSqrt] at h
  set R := (c * c * (tolD - tolN) * Q144).tdiv (Q144 * tolD) with hR
  by_cases hneg : R < 0
  · rw [if_pos hneg] at h; exact absurd h (by simp)
  rw [if_neg hneg] at h
  have hpl : pl = ((isqrt R.toNat : Nat) : Int) := (Option.some_inj.1 h).symm
  have hRle : R ≤ c * c := by
    rcases le_or_lt 0 (c * c * (tolD - tolN) * Q144) with hnum | hnum
    · refine tdiv_le hnum hden ?_
      nlinarith [mul_nonneg (mul_nonneg (mul_self_nonneg c) hq144.le) hn]
    · have h1 : 0 ≤ (-(c * c * (tolD - tolN) * Q144)).tdiv (Q144 * tolD) :=
        tdiv_nonneg' (by omega) hden.le
      rw [Int.neg_tdiv] at h1
      nlinarith [mul_pos hcpos hcpos]
  have hccnat : ((c.toNat * c.toNat : Nat) : Int) = c * c := by
    push_cast [Int.toNat_of_nonneg hcpos.le]
    ring
  have h2 : R.toNat ≤ c.toNat * c.toNat := by
    have := Int.toNat_le_toNat hRle
    rwa [show (c * c).toNat = c.toNat * c.toNat by
      rw [← hccnat, Int.toNat_natCast]] at this
  have h3 : isqrt R.toNat ≤ c.toNat :=
    (isqrt_le_of_le h2).trans_eq (isqrt_mul_self c.toNat)
  rw [hpl]
  calc ((isqrt R.toNat : Nat) : Int) ≤ ((c.toNat : Nat) : Int) := by exact_mod_cast h3
    _ = c := Int.toNat_of_nonneg hcpos.le

theorem encode_upper_ge {c tolN tolD pu : Int} (hcpos : 0 < c) (hn : 0 ≤ tolN) (hd : 0 < tolD)
    (h : encodeSqrtPriceX72 (c * c * (tolD + tolN)) (Q144 * tolD) = some pu) : c ≤ pu := by
  have hq144 : (0 : Int) < Q144 := by norm_num [Q144]
  have hden : (0 : Int) < Q144 * tolD := mul_pos hq144 hd
  unfold encodeSqrtPriceX72 jsDiv at h
  rw [if_neg hden.ne'] at h
  dsimp only [sdkSqrt] at h
  set R := (c * c * (tolD + tolN) * Q144).tdiv (Q144 * tolD) with hR
  have hnum : (0 : Int) ≤ c * c * (tolD + tolN) * Q144 :=
    mul_nonneg (mul_nonneg (mul_self_nonneg c) (by omega)) hq144.le
  have hRge : c * c ≤ R := by
    refine le_tdiv hnum hden ?_
    nlinarith [mul_nonneg (mul_nonneg (mul_self_nonneg c) hq144.le) hn]
  have hR0 : (0 : Int) ≤ R := le_trans (mul_self_nonneg c) hRge
  rw [if_neg (by omega)] at h
  have hpu : pu = ((isqrt R.toNat : Nat) : Int) := (Option.some_inj.1 h).symm
  have hccnat : ((c.toNat * c.toNat : Nat) : Int) = c * c := by
    push_cast [Int.toNat_of_nonneg hcpos.le]
    ring
  have h2 : c.toNat * c.toNat ≤ R.toNat := by
    rw [← Int.toNat_natCast (c.toNat * c.toNat)]
    exact Int.toNat_le_toNat (hccnat.le.trans hRge)
  have h3 : c.toNat ≤ isqrt R.toNat := by
    have := isqrt_le_of_le h2
    rwa [isqrt_mul_self c.toNat] at this
  rw [hpu]
  calc c = ((c.toNat : Nat) : Int) := (Int.toNat_of_nonneg hcpos.le).symm
    _ ≤ ((isqrt R.toNat : Nat) : Int) := by exact_mod_cast h3

/-- The tolerated price band around a valid tier price contains the
price itself. -/
theorem slip_bounds {t : Tier} {tolN tolD : Int} {sl : Int × Int}
    (h : t.sqrtPriceAfterSlippage tolN tolD = some sl)
    (hc1 : MIN_SQRT_PRICE ≤ t.sqrtPriceX72) (hc2 : t.sqrtPriceX72 ≤ MAX_SQRT_PRICE)
    (hn : 0 ≤ tolN) (hd : 0 < tolD) :
    sl.1 ≤ t.sqrtPriceX72 ∧ t.sqrtPriceX72 ≤ sl.2 := by
  have hcpos : 0 < t.sqrtPriceX72 := lt_of_lt_of_le (by norm_num [MIN_SQRT_PRICE]) hc1
  unfold Tier.sqrtPriceAfterSlippage at h
  dsimp only at h
  cases heq1 : encodeSqrtPriceX72 (t.sqrtPriceX72 * t.sqrtPriceX72 * (tolD - tolN))
      (Q144 * tolD) with
  | none => rw [heq1] at h; exact absurd h (by simp)
  | some pl =>
    rw [heq1] at h
    cases heq2 : encodeSqrtPriceX72 (t.sqrtPriceX72 * t.sqrtPriceX72 * (tolD + tolN))
        (Q144 * tolD) with
    | none => rw [heq2] at h; exact absurd h (by simp)
    | some pu =>
      rw [heq2] at h
      have hsl := (Option.some_inj.1 h).symm
      have hple := encode_lower_le hcpos hn hd heq1
      have hpuge := encode_upper_ge hcpos hn hd heq2
      rw [hsl]
      constructor
      · dsimp only
        split
        · exact hc1
        · exact hple
      · dsimp only
        split
        · exact hc2
        · exact hpuge

/-! ## Ceiling/floor characterizations -/

theorem mul_cdivP_lt {x y : Int} (hx : 0 ≤ x) (hy : 0 < y) : cdivP x y * y < x + y := by
  unfold cdivP
  have h1 := Int.tdiv_eq_ediv hx hy.le
  have h2 := Int.tmod_eq_emod hx hy.le
  have h3 := Int.ediv_add_emod x y
  have h4 := Int.emod_nonneg x hy.ne'
  have h5 := Int.emod_lt_of_pos x hy
  rw [h1, h2]
  split
  · rename_i hm
    have h6 : 0 < x % y := lt_of_le_of_ne h4 (Ne.symm hm)
    nlinarith
  · rename_i hm
    rw [not_not] at hm
    nlinarith

theorem lt_tdiv_mul_add {x y : Int} (hx : 0 ≤ x) (hy : 0 < y) : x < x.tdiv y * y + y := by
  rw [Int.tdiv_eq_ediv hx hy.le]
  have h3 := Int.ediv_add_emod x y
  have h5 := Int.emod_lt_of_pos x hy
  nlinarith

/-! ## Claim theorems -/

/-- C2: `tickToSqrtPriceX72 0` is exactly `2^72` (fixed-point 1.0), and the
extreme ticks map exactly onto the published price bound constants. -/
theorem tickToSqrtPrice_anchor_values :
    tickToSqrtPriceX72 0 = some (2 ^ 72) ∧
    tickToSqrtPriceX72 MIN_TICK = some 65539 ∧
    tickToSqrtPriceX72 MAX_TICK = some 340271175397327323250730767849398346765 ∧
    MIN_SQRT_PRICE = 65539 ∧
    MAX_SQRT_PRICE = 340271175397327323250730767849398346765 := by
  refine ⟨by decide!, by decide!, by decide!, rfl, rfl⟩

/-- C7: a tier's current tick is `sqrtPriceX72ToTick` of its sqrt price,
decremented by one exactly when that result equals the tier's stored
upper active-window bound `nextTickAbove`. -/
theorem tier_tickCurrent_spec (t : Tier) (tk : Int)
    (h : sqrtPriceX72ToTick t.sqrtPriceX72 = some tk) :
    t.tickCurrent = some (if tk = t.nextTickAbove then tk - 1 else tk) := by
  unfold Tier.tickCurrent
  rw [h]

/-- Witness for C7: a tier priced exactly at tick 0 whose active window
ends at 0 reports current tick `-1`. -/
theorem tier_tickCurrent_spec_witness :
    Tier.tickCurrent ⟨1, 2 ^ 72, 100000, -100, 0⟩ = some (-1) := by
  have h : sqrtPriceX72ToTick ((⟨1, 2 ^ 72, 100000, -100, 0⟩ : Tier).sqrtPriceX72)
      = some 0 := by decide!
  have h2 := tier_tickCurrent_spec ⟨1, 2 ^ 72, 100000, -100, 0⟩ 0 h
  simpa using h2

/-- C3: on any inputs with positive ordered price bounds,
`amountsForLiquidityDeltaD8` clamps the current price into the range and
returns non-negative amounts; a non-negative delta gives the ceiling of
`L(hi-p̂)Q72/(hi·p̂)` (token0, upper side) and of `L(p̂-lo)/Q72` (token1,
lower side), a negative delta the corresponding floors. -/
theorem amountsForLiquidityDeltaD8_spec (c lo hi d8 : Int) (hlh : lo < hi) (hlo : 0 < lo) :
    ∀ r, amountsForLiquidityDeltaD8 c lo hi d8 = some r →
      lo ≤ clampP c lo hi ∧ clampP c lo hi ≤ hi ∧ 0 ≤ r.1 ∧ 0 ≤ r.2 ∧
      (0 ≤ d8 →
        fromD8 |d8| * (hi - clampP c lo hi) * Q72 ≤ r.1 * (hi * clampP c lo hi) ∧
        r.1 * (hi * clampP c lo hi)
          < fromD8 |d8| * (hi - clampP c lo hi) * Q72 + hi * clampP c lo hi ∧
        fromD8 |d8| * (clampP c lo hi - lo) ≤ r.2 * Q72 ∧
        r.2 * Q72 < fromD8 |d8| * (clampP c lo hi - lo) + Q72) ∧
      (d8 < 0 →
        r.1 * (hi * clampP c lo hi) ≤ fromD8 |d8| * (hi - clampP c lo hi) * Q72 ∧
        fromD8 |d8| * (hi - clampP c lo hi) * Q72
          < r.1 * (hi * clampP c lo hi) + hi * clampP c lo hi ∧
        r.2 * Q72 ≤ fromD8 |d8| * (clampP c lo hi - lo) ∧
        fromD8 |d8| * (clampP c lo hi - lo) < r.2 * Q72 + Q72) := by
  intro r hr
  have hplo : lo ≤ clampP c lo hi := lo_le_clampP hlh.le
  have hphi : clampP c lo hi ≤ hi := clampP_le_hi hlh.le
  have hq : (0 : Int) < Q72 := by norm_num [Q72]
  have hden : (0 : Int) < hi * clampP c lo hi := mul_pos (by omega) (by omega)
  rcases le_or_lt 0 d8 with hd | hd
  · rw [amountsDelta_mint_eq hlo hlh hd] at hr
    obtain rfl : r = (mintA0 c lo hi (fromD8 d8), mintA1 c lo hi (fromD8 d8)) :=
      (Option.some_inj.1 hr).symm
    have hL : (0 : Int) ≤ fromD8 d8 := by unfold fromD8; positivity
    have hnum0 : (0 : Int) ≤ fromD8 d8 * (hi - clampP c lo hi) * Q72 :=
      mul_nonneg (mul_nonneg hL (by omega)) hq.le
    have hnum1 : (0 : Int) ≤ fromD8 d8 * (clampP c lo hi - lo) :=
      mul_nonneg hL (by omega)
    rw [abs_of_nonneg hd]
    refine ⟨hplo, hphi, mintA0_nonneg hlo hlh hL, mintA1_nonneg hlo hlh hL, fun _ => ?_,
      fun hc => absurd hc (by omega)⟩
    simp only [mintA0, mintA1]
    exact ⟨le_mul_cdivP hnum0 hden, mul_cdivP_lt hnum0 hden,
      le_mul_cdivP hnum1 hq, mul_cdivP_lt hnum1 hq⟩
  · rw [amountsDelta_burn_eq hlo hlh hd] at hr
    obtain rfl : r = (burnA0 c lo hi (fromD8 (-d8)), burnA1 c lo hi (fromD8 (-d8))) :=
      (Option.some_inj.1 hr).symm
    have hL : (0 : Int) ≤ fromD8 (-d8) := by unfold fromD8; nlinarith
    have hnum0 : (0 : Int) ≤ fromD8 (-d8) * (hi - clampP c lo hi) * Q72 :=
      mul_nonneg (mul_nonneg hL (by omega)) hq.le
    have hnum1 : (0 : Int) ≤ fromD8 (-d8) * (clampP c lo hi - lo) :=
      mul_nonneg hL (by omega)
    rw [abs_of_neg hd]
    refine ⟨hplo, hphi, burnA0_nonneg hlo hlh hL, burnA1_nonneg hlo hlh hL,
      fun hc => absurd hc (by omega), fun _ => ?_⟩
    simp only [burnA0, burnA1]
    exact ⟨tdiv_mul_le hnum0 hden, lt_tdiv_mul_add hnum0 hden,
      tdiv_mul_le hnum1 hq, lt_tdiv_mul_add hnum1 hq⟩

/-- Witness for C3 at concrete inputs. -/
theorem amountsForLiquidityDeltaD8_spec_witness :
    (0 : Int) ≤ ((138162950813100477109278, 1) : Int × Int).1 := by
  have h := amountsForLiquidityDeltaD8_spec 5 3 7 2 (by decide) (by decide)
    (138162950813100477109278, 1) (by decide!)
  exact h.2.2.1

/-- C8: with a canonical (positive-denominator) tolerance, a negative
tolerance makes both bounds throw; otherwise an exact-output trade fixes
the output and inflates the input by `1 + tolerance`, an exact-input
trade fixes the input and deflates the output by `1 / (1 + tolerance)`,
each with truncation (characterized as a floor for non-negative
amounts). -/
theorem trade_slippage_amounts (tolN tolD amtIn amtOut : Int) (htd : 0 < tolD) :
    (tolN < 0 → ∀ tt, tradeMinimumAmountOut tt tolN tolD amtOut = none ∧
        tradeMaximumAmountIn tt tolN tolD amtIn = none) ∧
    (0 ≤ tolN →
      tradeMinimumAmountOut .exactOutput tolN tolD amtOut = some amtOut ∧
      tradeMaximumAmountIn .exactInput tolN tolD amtIn = some amtIn ∧
      tradeMaximumAmountIn .exactOutput tolN tolD amtIn
        = some (((tolD + tolN) * amtIn).tdiv tolD) ∧
      tradeMinimumAmountOut .exactInput tolN tolD amtOut
        = some ((tolD * amtOut).tdiv (tolD + tolN)) ∧
      (0 ≤ amtOut →
        (tolD * amtOut).tdiv (tolD + tolN) * (tolD + tolN) ≤ tolD * amtOut ∧
        tolD * amtOut < (tolD * amtOut).tdiv (tolD + tolN) * (tolD + tolN) + (tolD + tolN)) ∧
      (0 ≤ amtIn →
        ((tolD + tolN) * amtIn).tdiv tolD * tolD ≤ (tolD + tolN) * amtIn ∧
        (tolD + tolN) * amtIn < ((tolD + tolN) * amtIn).tdiv tolD * tolD + tolD)) := by
  constructor
  · intro hneg tt
    unfold tradeMinimumAmountOut tradeMaximumAmountIn
    simp only [if_pos (show tolN * 1 < 0 * tolD by omega)]
    exact ⟨trivial, trivial⟩
  · intro hpos
    unfold tradeMinimumAmountOut tradeMaximumAmountIn
    simp only [if_neg (show ¬ tolN * 1 < 0 * tolD by omega)]
    refine ⟨trivial, trivial, trivial, trivial, fun hOut => ?_, fun hIn => ?_⟩
    · have hn : (0 : Int) ≤ tolD * amtOut := mul_nonneg htd.le hOut
      have hd : (0 : Int) < tolD + tolN := by omega
      exact ⟨tdiv_mul_le hn hd, lt_tdiv_mul_add hn hd⟩
    · have hn : (0 : Int) ≤ (tolD + tolN) * amtIn := mul_nonneg (by omega) hIn
      exact ⟨tdiv_mul_le hn htd, lt_tdiv_mul_add hn htd⟩

/-- Witness for C8 at tolerance 1/100 and amounts 1000. -/
theorem trade_slippage_amounts_witness :
    tradeMinimumAmountOut .exactInput 1 100 1000 = some 990 := by
  have h := (trade_slippage_amounts 1 100 1000 1000 (by norm_num)).2 (by norm_num)
  have h2 := h.2.2.2.1
  norm_num at h2 ⊢
  exact h2

/-- C9: the per-tier input distribution of one hop is each tier's share of
the hop's total input, an all-zero hop (total zero) degrading to the equal
`1/n` split for all `n` tiers; the function is total (never an error). -/
theorem getInputAmountDistribution_spec (amts : List Int) :
    (amts.foldl (· + ·) 0 = 0 →
      getInputAmountDistribution amts = List.replicate amts.length (1, (amts.length : Int))) ∧
    (amts.foldl (· + ·) 0 ≠ 0 →
      getInputAmountDistribution amts = amts.map fun a => (a, amts.foldl (· + ·) 0)) := by
  unfold getInputAmountDistribution
  constructor
  · intro h
    rw [if_pos h]
    induction amts with
    | nil => rfl
    | cons a l ih =>
      simp [List.replicate_succ]
  · intro h
    rw [if_neg h]

/-- Witness for C9: an all-zero two-tier hop splits 1/2, 1/2. -/
theorem getInputAmountDistribution_spec_witness :
    getInputAmountDistribution [0, 0] = List.replicate 2 (1, (2 : Int)) :=
  (getInputAmountDistribution_spec [0, 0]).1 (by decide)

/-- Withdrawing a non-negative D8 liquidity (the negated delta) always
lands in floor-rounding territory: at zero both roundings agree. -/
theorem amountsDelta_withdraw_eq {c lo hi d8 : Int} (h0 : 0 < lo) (hlh : lo < hi)
    (hd : 0 ≤ d8) :
    amountsForLiquidityDeltaD8 c lo hi (-d8)
      = some (burnA0 c lo hi (fromD8 d8), burnA1 c lo hi (fromD8 d8)) := by
  rcases lt_or_eq_of_le hd with hpos | hzero
  · have h := amountsDelta_burn_eq (c := c) h0 hlh (show -d8 < 0 by omega)
    rw [neg_neg] at h
    exact h
  · rw [← hzero, neg_zero, amountsDelta_mint_eq h0 hlh le_rfl]
    have hf : fromD8 0 = 0 := by unfold fromD8; ring
    rw [hf]
    unfold mintA0 mintA1 burnA0 burnA1
    simp only [zero_mul, cdivP_zero, Int.zero_tdiv]

/-- C4 counterexample: a position over ticks `[-1000, 1000]` in a tier
priced exactly at fixed-point 1.0, minted with a 10% slippage tolerance.
Both slippage-adjusted mint amounts are strictly BELOW the nominal mint
amounts (the second is even zero), refuting the claimed `≥` direction. -/
theorem c4_counterexample :
    Position.mintAmountsWithSlippage
        ⟨⟨⟨1, 0⟩, ⟨1, 1⟩, 1, [⟨0, Q72, 100000, MIN_TICK, MAX_TICK⟩]⟩,
          0, -1000, 1000, 10 ^ 18, 0, 0, false⟩ 10 100
      = some (571081427679028338, 0) ∧
    Position.mintAmounts
        ⟨⟨⟨1, 0⟩, ⟨1, 1⟩, 1, [⟨0, Q72, 100000, MIN_TICK, MAX_TICK⟩]⟩,
          0, -1000, 1000, 10 ^ 18, 0, 0, false⟩
      = some (12484658580807395584, 12484658580807395584) ∧
    (571081427679028338 : Int) < 12484658580807395584 ∧
    (0 : Int) < 12484658580807395584 := by
  refine ⟨by decide!, by decide!, by decide, by decide⟩

/-- C4 (corrected): for a position with positive ordered price bounds, a
valid tier price and a non-negative liquidity and tolerance, each token
amount returned by `mintAmountsWithSlippage` is at most — not at least —
the corresponding nominal `mintAmounts` amount: the function re-derives
the received liquidity by rounding DOWN and prices it at the tolerated
band edges, which can only shrink the amounts. -/
theorem mintAmountsWithSlippage_le (p : Position) (t : Tier) (lo hi tolN tolD : Int)
    (out nom : Int × Int)
    (ht : p.poolTier = some t)
    (hlo : p.sqrtPriceLower = some lo) (hhi : p.sqrtPriceUpper = some hi)
    (hlo0 : 0 < lo) (hlohi : lo < hi)
    (hc1 : MIN_SQRT_PRICE ≤ t.sqrtPriceX72) (hc2 : t.sqrtPriceX72 ≤ MAX_SQRT_PRICE)
    (hL : 0 ≤ p.liquidityD8) (htolN : 0 ≤ tolN) (htolD : 0 < tolD)
    (hout : p.mintAmountsWithSlippage tolN tolD = some out)
    (hnom : p.mintAmounts = some nom) :
    out.1 ≤ nom.1 ∧ out.2 ≤ nom.2 := by
  unfold Position.mintAmounts at hnom
  rw [ht, hlo, hhi] at hnom
  dsimp only at hnom
  rw [amountsDelta_mint_eq hlo0 hlohi hL] at hnom
  unfold Position.mintAmountsWithSlippage at hout
  rw [ht, hlo, hhi] at hout
  dsimp only at hout
  rw [amountsDelta_mint_eq hlo0 hlohi hL] at hout
  dsimp only at hout
  rw [maxOutput_eq hlohi] at hout
  dsimp only at hout
  cases hsl : t.sqrtPriceAfterSlippage tolN tolD with
  | none => rw [hsl] at hout; exact absurd hout (by simp)
  | some sl =>
    rw [hsl] at hout
    dsimp only at hout
    obtain ⟨hsl1, hsl2⟩ := slip_bounds hsl hc1 hc2 htolN htolD
    have hLfn : 0 ≤ fromD8 p.liquidityD8 := by unfold fromD8; omega
    set c := t.sqrtPriceX72 with hcdef
    set A0 := mintA0 c lo hi (fromD8 p.liquidityD8) with hA0
    set A1 := mintA1 c lo hi (fromD8 p.liquidityD8) with hA1
    have hA0n : 0 ≤ A0 := mintA0_nonneg hlo0 hlohi hLfn
    have hA1n : 0 ≤ A1 := mintA1_nonneg hlo0 hlohi hLfn
    set Lr := maxLiqP c lo hi A0 A1 with hLr
    have hLrn : 0 ≤ Lr := maxLiqP_nonneg hlo0 hlohi hA0n hA1n
    have hd8n : 0 ≤ toD8 Lr := tdiv_nonneg' hLrn (by norm_num)
    rw [minInput_eq hd8n, minInput_eq hd8n, amountsDelta_mint_eq hlo0 hlohi hd8n,
      amountsDelta_mint_eq hlo0 hlohi hd8n] at hout
    dsimp only at hout
    have hLqn : 0 ≤ fromD8 (toD8 Lr) := by unfold fromD8; omega
    have hdual := maxLiqP_duality (c := c) hlo0 hlohi hLfn
    have h1 : mintA0 sl.2 lo hi (fromD8 (toD8 Lr)) ≤ A0 :=
      le_trans (mintA0_anti hlo0 hlohi hLqn hsl2) hdual.1
    have h2 : mintA1 sl.1 lo hi (fromD8 (toD8 Lr)) ≤ A1 :=
      le_trans (mintA1_mono hlo0 hlohi hLqn hsl1) hdual.2
    have ho := Option.some_inj.1 hout
    have hn := Option.some_inj.1 hnom
    exact ⟨by rw [← ho, ← hn]; exact h1, by rw [← ho, ← hn]; exact h2⟩

/-- Witness for C4 (corrected) at the counterexample position: the
slippage-adjusted amounts `(571081427679028338, 0)` are bounded by the
nominal `(12484658580807395584, 12484658580807395584)`. -/
theorem mintAmountsWithSlippage_le_witness :
    (571081427679028338 : Int) ≤ 12484658580807395584 ∧
    (0 : Int) ≤ 12484658580807395584 :=
  mintAmountsWithSlippage_le
    ⟨⟨⟨1, 0⟩, ⟨1, 1⟩, 1, [⟨0, Q72, 100000, MIN_TICK, MAX_TICK⟩]⟩,
      0, -1000, 1000, 10 ^ 18, 0, 0, false⟩
    ⟨0, Q72, 100000, MIN_TICK, MAX_TICK⟩
    4492065181181849287990 4964474979560150087070 10 100
    (571081427679028338, 0) (12484658580807395584, 12484658580807395584)
    (by decide!) (by decide!) (by decide!) (by decide) (by decide)
    (by decide!) (by decide!) (by decide) (by decide) (by decide)
    (by decide!) (by decide!)

/-- C5 counterexample: a position over ticks `[0, 10]` in a tier priced
at tick 200, burnt with a 1% tolerance.  The tolerated sqrt-price band
`[4745915624150930574612, 4793614467108112989523]` lies strictly above
the whole position range (its lower edge exceeds the upper bound price
of tick 10), yet `burnAmountsWithSlippage` returns a NON-zero amount1:
the amounts vanish only when the band COVERS the range, not when it
exits it. -/
theorem c5_counterexample :
    Position.burnAmountsWithSlippage
        ⟨⟨⟨1, 0⟩, ⟨1, 1⟩, 1, [⟨0, 4769824670301211133959, 100000, MIN_TICK, MAX_TICK⟩]⟩,
          0, 0, 10, 10 ^ 12, 0, 0, false⟩ 1 100
      = some (0, 128025602560) ∧
    Tier.sqrtPriceAfterSlippage ⟨0, 4769824670301211133959, 100000, MIN_TICK, MAX_TICK⟩ 1 100
      = some (4745915624150930574612, 4793614467108112989523) ∧
    tickToSqrtPriceX72 10 = some 4724728138394954349327 ∧
    (4724728138394954349327 : Int) < 4745915624150930574612 ∧
    (0 : Int) < 128025602560 := by
  refine ⟨by decide!, by decide!, by decide!, by decide, by decide⟩

/-- C5 (corrected): for an unsettled position with positive ordered
price bounds, a valid tier price and non-negative liquidity and
tolerance, each amount returned by `burnAmountsWithSlippage` is at most
the corresponding nominal holding amount; and both amounts are exactly
zero when the tolerated price band COVERS the position's price range
(band lower edge at or below the range, band upper edge at or above
it) — not when the band exits the range. -/
theorem burnAmountsWithSlippage_le_holdings (p : Position) (t : Tier)
    (lo hi tolN tolD : Int) (out hold : Int × Int)
    (ht : p.poolTier = some t)
    (hlo : p.sqrtPriceLower = some lo) (hhi : p.sqrtPriceUpper = some hi)
    (hlo0 : 0 < lo) (hlohi : lo < hi)
    (hc1 : MIN_SQRT_PRICE ≤ t.sqrtPriceX72) (hc2 : t.sqrtPriceX72 ≤ MAX_SQRT_PRICE)
    (hL : 0 ≤ p.liquidityD8) (htolN : 0 ≤ tolN) (htolD : 0 < tolD)
    (hset : p.settled = false)
    (hout : p.burnAmountsWithSlippage tolN tolD = some out)
    (hhold : p.holdingAmounts = some hold) :
    out.1 ≤ hold.1 ∧ out.2 ≤ hold.2 ∧
      ∀ sl : Int × Int, t.sqrtPriceAfterSlippage tolN tolD = some sl →
        sl.1 ≤ lo → hi ≤ sl.2 → out = (0, 0) := by
  unfold Position.holdingAmounts at hhold
  rw [ht, hlo, hhi, hset] at hhold
  simp only [Bool.false_eq_true, if_false] at hhold
  rw [amountsDelta_withdraw_eq hlo0 hlohi hL] at hhold
  unfold Position.burnAmountsWithSlippage at hout
  rw [ht, hlo, hhi, hset] at hout
  dsimp only at hout
  cases hsl : t.sqrtPriceAfterSlippage tolN tolD with
  | none => rw [hsl] at hout; exact absurd hout (by simp)
  | some sl =>
    rw [hsl] at hout
    simp only [Bool.false_eq_true, if_false] at hout
    rw [minOutput_eq hL, minOutput_eq hL, amountsDelta_withdraw_eq hlo0 hlohi hL,
      amountsDelta_withdraw_eq hlo0 hlohi hL] at hout
    dsimp only at hout
    obtain ⟨hsl1, hsl2⟩ := slip_bounds hsl hc1 hc2 htolN htolD
    have hLfn : 0 ≤ fromD8 p.liquidityD8 := by unfold fromD8; omega
    have hb0 := burnA0_anti hlo0 hlohi hLfn hsl2
    have hb1 := burnA1_mono hlo0 hlohi hLfn hsl1
    have ho := Option.some_inj.1 hout
    have hh := Option.some_inj.1 hhold
    refine ⟨by rw [← ho, ← hh]; exact hb0, by rw [← ho, ← hh]; exact hb1, ?_⟩
    intro sl' hsl' hcov1 hcov2
    have hss : sl = sl' := Option.some_inj.1 hsl'
    rw [← hss] at hcov1 hcov2
    have hz0 : burnA0 sl.2 lo hi (fromD8 p.liquidityD8) = 0 := by
      unfold burnA0
      rw [clampP_of_hi_le hcov2 hlohi.le, sub_self, mul_zero, zero_mul, Int.zero_tdiv]
    have hz1 : burnA1 sl.1 lo hi (fromD8 p.liquidityD8) = 0 := by
      unfold burnA1
      rw [clampP_of_le_lo hcov1 hlohi.le, sub_self, mul_zero, Int.zero_tdiv]
    rw [← ho, hz0, hz1]

/-- Witness for C5 (corrected) at a position over ticks `[0, 10]` priced
at tick 200: the burn amounts `(0, 128025602560)` are bounded by the
holdings `(0, 128025602560)`. -/
theorem burnAmountsWithSlippage_le_holdings_witness :
    (0 : Int) ≤ 0 ∧ (128025602560 : Int) ≤ 128025602560 := by
  have h := burnAmountsWithSlippage_le_holdings
    ⟨⟨⟨1, 0⟩, ⟨1, 1⟩, 1, [⟨0, 4769824670301211133959, 100000, MIN_TICK, MAX_TICK⟩]⟩,
      0, 0, 10, 10 ^ 12, 0, 0, false⟩
    ⟨0, 4769824670301211133959, 100000, MIN_TICK, MAX_TICK⟩
    4722366482869645213696 4724728138394954349327 1 100
    (0, 128025602560) (0, 128025602560)
    (by decide!) (by decide!) (by decide!) (by decide) (by decide)
    (by decide!) (by decide!) (by decide) (by decide) (by decide)
    (by decide) (by decide!) (by decide!)
  exact ⟨h.1, h.2.1⟩

/-- An Option-monad `mapM` succeeds exactly when the function succeeds
on every element. -/
theorem mapM_isSome {α β : Type} (f : α → Option β) (l : List α) :
    (l.mapM f).isSome = true ↔ ∀ a ∈ l, (f a).isSome = true := by
  induction l with
  | nil => exact iff_of_true rfl (by simp)
  | cons a l ih =>
    rw [List.mapM_cons, List.forall_mem_cons]
    cases hfa : f a with
    | none => simp [hfa]
    | some b =>
      cases hl : l.mapM f with
      | none =>
        rw [hl] at ih
        simp only [Option.isSome_none, Bool.false_eq_true, false_iff] at ih
        simp [hfa, hl, ih]
      | some bs =>
        rw [hl] at ih
        simp only [Option.isSome_some, true_iff] at ih
        exact iff_of_true (by simp [hfa, hl]) ⟨by simp [hfa], ih⟩

/-- What the tier-mask validation of the `Route` constructor accepts:
every (pool, mask) pair must have `mask ≤ ALL_TIERS` and a non-zero
residue `mask % 2^tierCount`. -/
theorem checkTierChoices_isSome (pools : List Pool) (tcl : List Nat) :
    (checkTierChoices pools tcl).isSome = true ↔
      ∀ pc ∈ pools.zip tcl, pc.2 ≤ MAX_TIER_CHOICES ∧ 0 < pc.2 % 2 ^ pc.1.tiers.length := by
  unfold checkTierChoices
  rw [mapM_isSome]
  constructor
  · intro h pc hmem
    have h2 := h pc hmem
    dsimp only at h2
    by_cases hc : pc.2 ≤ MAX_TIER_CHOICES ∧ 0 < pc.2 % 2 ^ pc.1.tiers.length
    · exact hc
    · rw [if_neg hc] at h2
      exact absurd h2 (by simp)
  · intro h pc hmem
    dsimp only
    rw [if_pos (h pc hmem)]
    rfl

/-- C6 counterexample: a single 2-tier pool with tier mask `6 = 0b110`.
The mask exceeds the pool's tier count (and even `2^tierCount`), yet
route construction SUCCEEDS: the mask is reduced modulo `2^tierCount`
to `0b10` and only a zero residue or a mask above `ALL_TIERS = 63` is
rejected. -/
theorem c6_counterexample :
    ([⟨0, Q72, 100000, -1, 1⟩, ⟨0, Q72, 100000, -1, 1⟩] : List Tier).length = 2 ∧
    2 ^ 2 ≤ 6 ∧
    (mkRoute [⟨⟨1, 0⟩, ⟨1, 1⟩, 1, [⟨0, Q72, 100000, -1, 1⟩, ⟨0, Q72, 100000, -1, 1⟩]⟩]
        [6] ⟨1, 0⟩ ⟨1, 1⟩).isSome = true := by
  refine ⟨rfl, by decide, by decide!⟩

/-- C6 (corrected): a mask count differing from the pool count does fail
route construction; but the tier-mask validation itself passes exactly
when every (pool, mask) pair has `mask ≤ ALL_TIERS` (63) and a non-zero
residue `mask % 2^tierCount` — a zero mask fails, while a mask exceeding
the pool's tier count passes whenever its residue is non-zero. -/
theorem route_tier_mask_validation (pools : List Pool) (tcl : List Nat)
    (input output : Token) :
    (tcl.length ≠ pools.length → mkRoute pools tcl input output = none) ∧
    ((checkTierChoices pools tcl).isSome = true ↔
      ∀ pc ∈ pools.zip tcl, pc.2 ≤ MAX_TIER_CHOICES ∧ 0 < pc.2 % 2 ^ pc.1.tiers.length) := by
  refine ⟨?_, checkTierChoices_isSome pools tcl⟩
  intro hlen
  cases pools with
  | nil => rfl
  | cons p0 rest =>
    unfold mkRoute
    dsimp only
    split_ifs <;> rfl

/-- Witness for C6 (corrected): an empty mask list against one pool
fails construction, and the mask list `[6]` against one 2-tier pool
passes the tier-mask validation. -/
theorem route_tier_mask_validation_witness :
    mkRoute [⟨⟨1, 0⟩, ⟨1, 1⟩, 1, [⟨0, Q72, 100000, -1, 1⟩, ⟨0, Q72, 100000, -1, 1⟩]⟩]
        [] ⟨1, 0⟩ ⟨1, 1⟩ = none ∧
    (checkTierChoices [⟨⟨1, 0⟩, ⟨1, 1⟩, 1, [⟨0, Q72, 100000, -1, 1⟩, ⟨0, Q72, 100000, -1, 1⟩]⟩]
        [6]).isSome = true := by
  refine ⟨(route_tier_mask_validation
      [⟨⟨1, 0⟩, ⟨1, 1⟩, 1, [⟨0, Q72, 100000, -1, 1⟩, ⟨0, Q72, 100000, -1, 1⟩]⟩]
      [] ⟨1, 0⟩ ⟨1, 1⟩).1 (by decide), ?_⟩
  exact (route_tier_mask_validation
      [⟨⟨1, 0⟩, ⟨1, 1⟩, 1, [⟨0, Q72, 100000, -1, 1⟩, ⟨0, Q72, 100000, -1, 1⟩]⟩]
      [6] ⟨1, 0⟩ ⟨1, 1⟩).2.2 (by decide!)

/-- A list keeps its length under `dedup` exactly when it has no
duplicates. -/
theorem dedup_length_iff {α : Type} [DecidableEq α] (l : List α) :
    l.length = l.dedup.length ↔ l.Nodup := by
  constructor
  · intro h
    have hs := List.dedup_sublist l
    have he := hs.eq_of_length h.symm
    exact he ▸ l.nodup_dedup
  · intro h
    rw [List.dedup_eq_self.2 h]

/-- C10: trade construction with matching currencies succeeds exactly
when the pool ids — the ordered token0/token1 address pairs — of all
pools across the union of the swaps' routes are pairwise distinct; the
check is by token-pair identity, so two structurally different pools
over the same token pair also collide. -/
theorem mkTrade_dedup_spec (r0 : Swap) (rest : List Swap) (tt : TradeType)
    (hin : ((r0 :: rest).all fun s => s.route.input = r0.inputCurrency) = true)
    (hout : ((r0 :: rest).all fun s => s.route.output = r0.outputCurrency) = true) :
    (mkTrade (r0 :: rest) tt).isSome = true ↔
      ((((r0 :: rest).map fun s => s.route.pools).flatten.map Pool.poolId)).Nodup := by
  unfold mkTrade
  dsimp only
  rw [if_neg (not_not.2 hin), if_neg (not_not.2 hout)]
  set L := ((r0 :: rest).map fun s => s.route.pools).flatten with hLdef
  by_cases hc : L.length = (L.map Pool.poolId).dedup.length
  · rw [if_pos hc]
    refine iff_of_true rfl ?_
    refine (dedup_length_iff (L.map Pool.poolId)).1 ?_
    rw [List.length_map]
    exact hc
  · rw [if_neg hc]
    refine iff_of_false (by simp) ?_
    intro hnd
    have h := (dedup_length_iff (L.map Pool.poolId)).2 hnd
    rw [List.length_map] at h
    exact hc h

/-- Witness for C10: a single swap whose route holds two structurally
different pools (tick spacings 1 and 2) over the same token pair — the
duplicate pool id makes trade construction fail. -/
theorem mkTrade_dedup_spec_witness :
    ¬ (mkTrade [⟨⟨[⟨⟨1, 0⟩, ⟨1, 1⟩, 1, []⟩, ⟨⟨1, 0⟩, ⟨1, 1⟩, 2, []⟩], [], [],
        ⟨1, 0⟩, ⟨1, 1⟩⟩, ⟨1, 0⟩, 5, ⟨1, 1⟩, 5⟩] TradeType.exactInput).isSome = true := by
  intro hs
  have h := mkTrade_dedup_spec
    ⟨⟨[⟨⟨1, 0⟩, ⟨1, 1⟩, 1, []⟩, ⟨⟨1, 0⟩, ⟨1, 1⟩, 2, []⟩], [], [], ⟨1, 0⟩, ⟨1, 1⟩⟩,
      ⟨1, 0⟩, 5, ⟨1, 1⟩, 5⟩ [] TradeType.exactInput (by decide) (by decide)
  exact absurd (h.1 hs) (by decide)

end Muffin
